import Mathlib

/-
Verification of the exam-hall seating generation service
(`backend-v2/services/seatingGenerator.js`, final revision: the one with
strict year locks, CSE alternation in all rooms and smart gap distribution).

Modelling conventions:
* Mongo object ids are modelled as `Nat` (`Student.id`, `Room.id`).
* The two `shuffleArray` calls (Fisher-Yates over `Math.random`) only permute
  lists; they are modelled as the identity permutation and every theorem
  below quantifies over an arbitrary input order, which covers every possible
  shuffle outcome.  Likewise `groupStudentsByBranchAndYear` followed by
  flattening is a permutation of the student list and is absorbed into the
  same quantification.
* JS `number` arithmetic inside `calculateSeatPositions`
  (`interval = totalSeats / studentsCount`, `Math.floor(i * interval)`) is
  modelled bit-accurately as IEEE-754 binary64: a double is an exact dyadic
  rational `m * 2^k`, division and multiplication round the exact result to
  53 significant bits with round-to-nearest, ties-to-even (`jsDiv`, `jsMul`),
  and `Math.floor` floors the dyadic value (`dfloor`).  All values that occur
  are positive and normal, far from overflow and underflow, where these
  rules are exactly the IEEE semantics.
* The nested `rows × cols` layout array is modelled by its row-major
  flattening `grid : List (Option Student)` together with the recorded
  dimensions; cell `(row, col)` of the JS array is entry `row * cols + col`.
* Mutable pool cursors (`pool.index`) are modelled exactly as in the source:
  a `Pool` keeps the full (possibly swapped) array plus the cursor.
* `RoomRun.trace` and `SeatingResult.finalPools` are ghost instrumentation
  (the pool state right before each successful placement, and the pool state
  after the whole run); they are not part of the JS output object and do not
  influence the computed grids.
-/

namespace ExamHall

/-- A student record, as stored in the `students` collection and consumed
read-only by the generator (`{_id, registerNumber, name, branch, section,
year}`). -/
structure Student where
  id : Nat
  registerNumber : String
  name : String
  branch : String
  «section» : String
  year : Nat
deriving DecidableEq, Repr, Inhabited

/-- A room record (`{_id, name, capacity, type}`). -/
structure Room where
  id : Nat
  name : String
  capacity : Nat
  type : String
deriving DecidableEq, Repr, Inhabited

/-- Accumulator for the digit-parsing part of JS `parseInt`: consumes the
longest prefix of decimal digits. -/
def digitsAcc : Nat → List Char → Nat
  | acc, [] => acc
  | acc, c :: cs => if c.isDigit then digitsAcc (acc * 10 + (c.toNat - '0'.toNat)) cs else acc

/-- JS `parseInt` restricted to the shapes that occur in room names:
parses the longest prefix of decimal digits, `none` when the first character
is not a digit (JS `NaN`).  Sign and whitespace handling is not modelled. -/
def parseIntNat (s : List Char) : Option Nat :=
  match s with
  | [] => none
  | c :: _ => if c.isDigit then some (digitsAcc 0 s) else none

/-- JS `name.replace('R', '')`: removes the first occurrence of `'R'`. -/
def removeFirstR : List Char → List Char
  | [] => []
  | c :: cs => if c = 'R' then cs else c :: removeFirstR cs

/-- The numeric sort key of a room: `parseInt(room.name.replace('R', ''))`. -/
def roomSortKey (r : Room) : Option Nat :=
  parseIntNat (removeFirstR r.name.data)

/-- The comparator `(a, b) => numA - numB` as a `≤` on parsed keys
(an unparsable name, JS `NaN`, is read as key `0`; all theorems about the
sort assume every name parses). -/
def roomLe (a b : Room) : Prop :=
  (roomSortKey a).getD 0 ≤ (roomSortKey b).getD 0

instance : DecidableRel roomLe := fun _ _ => Nat.decLe _ _

instance : IsTotal Room roomLe := ⟨fun _ _ => Nat.le_total _ _⟩

instance : IsTrans Room roomLe := ⟨fun _ _ _ => Nat.le_trans⟩

/-- `rooms.sort((a, b) => parseInt(a.name.replace('R','')) - parseInt(b.name.replace('R','')))`
(JS `Array.prototype.sort` is stable; modelled by the stable insertion
sort). -/
def sortRoomsNumeric (rooms : List Room) : List Room :=
  rooms.insertionSort roomLe

/-- Overflow handling of `generateSeating` (lines 99-107): if there are more
students than seats, seat the first `totalCapacity` students (in the given
deterministic order) and record the rest as unassigned; never throws. -/
def overflowSplit (students : List Student) (totalCapacity : Nat) :
    List Student × List Student :=
  if totalCapacity < students.length then
    (students.take totalCapacity, students.drop totalCapacity)
  else (students, [])

/-- Loop body of `distributeStudentsAcrossRooms`: each room gets `base`
students, plus one while `remainder` lasts, capped at the room capacity. -/
def distributeGo (base : Nat) : Nat → List Room → List Nat
  | _, [] => []
  | remainder, r :: rs =>
    if 0 < remainder then
      min (base + 1) r.capacity :: distributeGo base (remainder - 1) rs
    else
      min base r.capacity :: distributeGo base 0 rs

/-- `distributeStudentsAcrossRooms(totalStudents, rooms)`: per-room target
occupancies (`Math.floor` division, remainder to the earliest rooms, each
count capped at the room's own capacity). -/
def distributeStudentsAcrossRooms (totalStudents : Nat) (rooms : List Room) : List Nat :=
  distributeGo (totalStudents / rooms.length) (totalStudents % rooms.length) rooms

/-- Round `a / b` (with `b > 0`) to the nearest integer, ties to even: the
IEEE-754 rounding step, applied to an exact nonnegative rational. -/
def roundNearestEven (a b : Nat) : Nat :=
  let q := a / b
  let r := a % b
  if 2 * r < b then q
  else if b < 2 * r then q + 1
  else if q % 2 == 0 then q else q + 1

/-- Fuel-bounded `⌊log₂ n⌋` (structural recursion, so kernel evaluation
works); correct for `n < 2 ^ fuel` and `n ≥ 1`. -/
def log2go : Nat → Nat → Nat
  | 0, _ => 0
  | fuel + 1, n => if 2 ≤ n then log2go fuel (n / 2) + 1 else 0

/-- IEEE-754 binary64 division `fl64(g / t)` for `1 ≤ t ≤ g`, returned as an
exact dyadic rational `(m, k)` with value `m * 2^k`: the true quotient is
scaled into `[2^52, 2^53)` and rounded to nearest, ties to even, with
renormalisation when rounding carries into `2^53`. -/
def jsDiv (g t : Nat) : Nat × Int :=
  let e := log2go 64 (g / t)
  let m := roundNearestEven (g * 2 ^ 52) (t * 2 ^ e)
  if m = 2 ^ 53 then (2 ^ 52, (e : Int) + 1 - 52) else (m, (e : Int) - 52)

/-- IEEE-754 binary64 multiplication `fl64(i * x)` of an exactly
representable small integer `i` by a double `x`: the exact product is
rounded to 53 significant bits. -/
def jsMul (i : Nat) (x : Nat × Int) : Nat × Int :=
  let P := i * x.1
  let b := log2go 128 P
  if b ≤ 52 then (P, x.2)
  else
    let sh := b - 52
    let m := roundNearestEven P (2 ^ sh)
    if m = 2 ^ 53 then (2 ^ 52, x.2 + sh + 1) else (m, x.2 + (sh : Int))

/-- `Math.floor` of a nonnegative double `m * 2^k`. -/
def dfloor (x : Nat × Int) : Nat :=
  match x.2 with
  | Int.ofNat k => x.1 * 2 ^ k
  | Int.negSucc k => x.1 / 2 ^ (k + 1)

/-- `calculateSeatPositions(rows, cols, studentsCount)`: the row-major cell
indices to fill.  Full grid when `studentsCount >= totalSeats`; otherwise
`Math.floor(i * interval)` for `i < studentsCount`, with
`interval = totalSeats / studentsCount` computed once in binary64 and each
product rounded in binary64, exactly as the JS engine does.  (For
`studentsCount = 0` the map is empty and `interval`, JS `Infinity`, is never
used.) -/
def calculateSeatPositions (rows cols studentsCount : Nat) : List Nat :=
  let totalSeats := rows * cols
  if totalSeats ≤ studentsCount then
    List.range totalSeats
  else
    let interval := jsDiv totalSeats studentsCount
    (List.range studentsCount).map (fun i => dfloor (jsMul i interval))

/-- Grid dimensions of a room (lines 230-242): fixed lookups for the `60`
and `45` types, otherwise 10 columns and `Math.ceil(capacity / 10)` rows. -/
def roomDims (r : Room) : Nat × Nat :=
  if r.type == "60" || r.capacity == 60 then (6, 10)
  else if r.type == "45" || r.capacity == 45 then (5, 9)
  else ((r.capacity + 9) / 10, 10)

/-- A branch pool: the (already shuffled) student array plus the read cursor
`index`. -/
structure Pool where
  students : List Student
  index : Nat
deriving DecidableEq, Repr, Inhabited

/-- The part of the pool the cursor has not consumed yet. -/
def Pool.remaining (p : Pool) : List Student :=
  p.students.drop p.index

/-- The lookahead scan of `getStudentFromPool`
(`for (let i = pool.index; i < Math.min(pool.index + 5, pool.students.length); i++)`),
written over the not-yet-consumed part of the pool with a window budget:
the relative index of the first student whose branch differs from `b`,
looking at most `fuel` students ahead. -/
def lookWin : List Student → String → Nat → Option Nat
  | [], _, _ => none
  | s :: rest, b, fuel =>
    match fuel with
    | 0 => none
    | fuel' + 1 =>
      if s.branch != b then some 0 else (lookWin rest b fuel').map (· + 1)

/-- The first absolute index `i ∈ [idx, min (idx+5) l.length)` whose
student's branch differs from `b`. -/
def lookWindow (l : List Student) (idx : Nat) (b : String) : Option Nat :=
  (lookWin (l.drop idx) b 5).map (· + idx)

/-- The destructive swap `[arr[i], arr[j]] = [arr[j], arr[i]]`. -/
def listSwap (l : List Student) (i j : Nat) : List Student :=
  (l.set i (l.getD j default)).set j (l.getD i default)

/-- `getStudentFromPool(pool, leftBranch)` (lines 547-572): `none` when the
cursor has reached the end; otherwise, with a left neighbour, scan up to 5
students ahead for a different branch, swap it to the cursor position and
consume it, falling back to the unconditional next student. -/
def getStudentFromPool (pool : Pool) (leftBranch : Option String) :
    Option Student × Pool :=
  if pool.students.length ≤ pool.index then (none, pool)
  else
    match leftBranch with
    | some b =>
      match lookWindow pool.students pool.index b with
      | some i =>
        let st := pool.students.getD i default
        let arr := if i = pool.index then pool.students
                   else listSwap pool.students pool.index i
        (some st, ⟨arr, pool.index + 1⟩)
      | none => (some (pool.students.getD pool.index default), ⟨pool.students, pool.index + 1⟩)
    | none => (some (pool.students.getD pool.index default), ⟨pool.students, pool.index + 1⟩)

/-- The four pools `Year1-CSE`, `Year1-NonCSE`, `Year2-CSE`, `Year2-NonCSE`. -/
structure Pools where
  y1cse : Pool
  y1non : Pool
  y2cse : Pool
  y2non : Pool
deriving DecidableEq, Repr, Inhabited

/-- `pools[`Year${y}-CSE`]` (the lock is only ever set to `1` or `2`). -/
def csePoolOf (ps : Pools) (y : Nat) : Pool :=
  if y == 1 then ps.y1cse else ps.y2cse

/-- `pools[`Year${y}-NonCSE`]`. -/
def nonPoolOf (ps : Pools) (y : Nat) : Pool :=
  if y == 1 then ps.y1non else ps.y2non

/-- Write back the mutated year-`y` CSE pool. -/
def setCsePool (ps : Pools) (y : Nat) (p : Pool) : Pools :=
  if y == 1 then { ps with y1cse := p } else { ps with y2cse := p }

/-- Write back the mutated year-`y` non-CSE pool. -/
def setNonPool (ps : Pools) (y : Nat) (p : Pool) : Pools :=
  if y == 1 then { ps with y1non := p } else { ps with y2non := p }

/-- `getNextStudentWithStrictRules` (lines 422-539).  Returns the selected
student (if any), the updated pools and the updated year lock of the current
room.  A failed `getStudentFromPool` call leaves its pool untouched in the
source, so the fallback attempts run on the unchanged pools. -/
def getNextStudentWithStrictRules (ps : Pools) (yearLock : Option Nat)
    (applyAlternation lastWasCSE : Bool) (leftBranch : Option String) :
    Option Student × Pools × Option Nat :=
  match yearLock with
  | some y =>
    if applyAlternation then
      if lastWasCSE then
        match getStudentFromPool (nonPoolOf ps y) leftBranch with
        | (some st, p') => (some st, setNonPool ps y p', some y)
        | (none, _) =>
          match getStudentFromPool (csePoolOf ps y) leftBranch with
          | (some st, p') => (some st, setCsePool ps y p', some y)
          | (none, _) => (none, ps, some y)
      else
        match getStudentFromPool (csePoolOf ps y) leftBranch with
        | (some st, p') => (some st, setCsePool ps y p', some y)
        | (none, _) =>
          match getStudentFromPool (nonPoolOf ps y) leftBranch with
          | (some st, p') => (some st, setNonPool ps y p', some y)
          | (none, _) => (none, ps, some y)
    else
      match getStudentFromPool (csePoolOf ps y) leftBranch with
      | (some st, p') => (some st, setCsePool ps y p', some y)
      | (none, _) =>
        match getStudentFromPool (nonPoolOf ps y) leftBranch with
        | (some st, p') => (some st, setNonPool ps y p', some y)
        | (none, _) => (none, ps, some y)
  | none =>
    if applyAlternation then
      let tryNon : Option Student × Pools × Option Nat :=
        match getStudentFromPool ps.y1non leftBranch with
        | (some st, p') => (some st, { ps with y1non := p' }, some 1)
        | (none, _) =>
          match getStudentFromPool ps.y2non leftBranch with
          | (some st, p') => (some st, { ps with y2non := p' }, some 2)
          | (none, _) => (none, ps, none)
      if !lastWasCSE then
        match getStudentFromPool ps.y1cse leftBranch with
        | (some st, p') => (some st, { ps with y1cse := p' }, some 1)
        | (none, _) =>
          match getStudentFromPool ps.y2cse leftBranch with
          | (some st, p') => (some st, { ps with y2cse := p' }, some 2)
          | (none, _) => tryNon
      else tryNon
    else
      match getStudentFromPool ps.y1cse leftBranch with
      | (some st, p') => (some st, { ps with y1cse := p' }, some 1)
      | (none, _) =>
        match getStudentFromPool ps.y1non leftBranch with
        | (some st, p') => (some st, { ps with y1non := p' }, some 1)
        | (none, _) =>
          match getStudentFromPool ps.y2cse leftBranch with
          | (some st, p') => (some st, { ps with y2cse := p' }, some 2)
          | (none, _) =>
            match getStudentFromPool ps.y2non leftBranch with
            | (some st, p') => (some st, { ps with y2non := p' }, some 2)
            | (none, _) => (none, ps, none)

/-- The per-room fill loop of `generateRoomLayoutsWithRules` (lines 256-298),
iterating the grid cells in row-major order.  `r` is the number of cells left,
`p` the current linear cell index, `prev` the content of cell `p - 1`.
Returns the flattened grid, the ghost trace of pool states right before each
successful placement, the final pools and the final room year lock.
Cells not selected by `seatsToFill` stay `null`; the loop breaks (leaving the
rest of the grid `null`) when the room target is reached or when no further
student is available. -/
def fillLoop (cols target : Nat) (toFill : List Nat) :
    Nat → Nat → Nat → Option Student → Bool → Pools → Option Nat →
    List (Option Student) × List Pools × Pools × Option Nat
  | 0, _, _, _, _, ps, lock => ([], [], ps, lock)
  | r + 1, p, placed, prev, lastWasCSE, ps, lock =>
    if !(toFill.contains p) then
      let rec' := fillLoop cols target toFill r (p + 1) placed none lastWasCSE ps lock
      (none :: rec'.1, rec'.2.1, rec'.2.2.1, rec'.2.2.2)
    else if target ≤ placed then
      (List.replicate (r + 1) none, [], ps, lock)
    else
      let lb := if p % cols == 0 then none else prev.map (fun s => s.branch)
      match getNextStudentWithStrictRules ps lock true lastWasCSE lb with
      | (some st, ps', lock') =>
        let rec' := fillLoop cols target toFill r (p + 1) (placed + 1) (some st)
          (st.branch == "CSE") ps' lock'
        (some st :: rec'.1, ps :: rec'.2.1, rec'.2.2.1, rec'.2.2.2)
      | (none, _, _) => (List.replicate (r + 1) none, [], ps, lock)

/-- One room of the result (`{roomId, roomName, layout}`), with the layout
flattened row-major and the ghost placement trace. -/
structure RoomRun where
  roomId : Nat
  roomName : String
  rows : Nat
  cols : Nat
  grid : List (Option Student)
  trace : List Pools
deriving DecidableEq, Repr, Inhabited

/-- The room loop of `generateRoomLayoutsWithRules` (lines 222-305): each room
is resolved fully, threading the shared mutable pools; each room starts with
an unset year lock (`roomYearLock[roomIdx]` is a fresh key). -/
def processRooms : List Room → List Nat → Pools → List RoomRun × Pools
  | [], _, ps => ([], ps)
  | room :: rest, targets, ps =>
    let target := targets.headD 0
    let dims := roomDims room
    let toFill := calculateSeatPositions dims.1 dims.2 target
    let filled := fillLoop dims.2 target toFill (dims.1 * dims.2) 0 0 none false ps none
    let others := processRooms rest targets.tail filled.2.2.1
    ({ roomId := room.id, roomName := room.name, rows := dims.1, cols := dims.2,
       grid := filled.1, trace := filled.2.1 } :: others.1, others.2)

/-- Pool construction of `generateRoomLayoutsWithRules` (lines 193-215):
split by year, then by CSE / non-CSE, cursors at 0.  (The per-pool shuffles
are modelled as the identity permutation; see the header comment.) -/
def mkPools (allStudents : List Student) : Pools :=
  let year1 := allStudents.filter (fun s => s.year == 1)
  let year2 := allStudents.filter (fun s => s.year == 2)
  { y1cse := ⟨year1.filter (fun s => s.branch == "CSE"), 0⟩
    y1non := ⟨year1.filter (fun s => s.branch != "CSE"), 0⟩
    y2cse := ⟨year2.filter (fun s => s.branch == "CSE"), 0⟩
    y2non := ⟨year2.filter (fun s => s.branch != "CSE"), 0⟩ }

/-- `generateRoomLayoutsWithRules(rooms, branchYearGroups)` (lines 171-308):
throws when there are no students at all, otherwise plans the per-room
occupancies and fills the rooms in order. -/
def generateRoomLayoutsWithRules (rooms : List Room) (allStudents : List Student) :
    Except String (List RoomRun × Pools) :=
  if allStudents.isEmpty then Except.error "No students available for seating"
  else
    let studentsPerRoom := distributeStudentsAcrossRooms allStudents.length rooms
    Except.ok (processRooms rooms studentsPerRoom (mkPools allStudents))

/-- The persisted seating document, restricted to the fields the claims are
about, plus the ghost final pool state. -/
structure SeatingResult where
  rooms : List RoomRun
  unassignedCount : Nat
  unassignedStudents : List Nat
  finalPools : Pools
deriving DecidableEq, Repr, Inhabited

/-- `generateSeating` (lines 42-133) restricted to its pure core: the student
and room lists arrive pre-filtered and pre-sorted (by `registerNumber`) from
the data layer; the function rejects empty inputs, sorts rooms numerically,
truncates on overflow and runs the engine. -/
def generateSeatingModel (students : List Student) (rooms : List Room) :
    Except String SeatingResult :=
  if students.isEmpty then Except.error "No students found for selected classes."
  else if rooms.isEmpty then Except.error "No rooms found."
  else
    let sorted := sortRoomsNumeric rooms
    let totalCapacity := (sorted.map Room.capacity).sum
    let split := overflowSplit students totalCapacity
    match generateRoomLayoutsWithRules sorted split.1 with
    | Except.error e => Except.error e
    | Except.ok (runs, psF) =>
      Except.ok { rooms := runs, unassignedCount := split.2.length,
                  unassignedStudents := split.2.map Student.id, finalPools := psF }

/-- The students placed in a room, in fill (row-major traversal) order. -/
def RoomRun.placed (rr : RoomRun) : List Student :=
  rr.grid.filterMap id

/-- All placed students of a result, across all rooms. -/
def SeatingResult.allPlaced (res : SeatingResult) : List Student :=
  (res.rooms.map RoomRun.placed).flatten


/-- Helper to build concrete students for the executable scenarios. -/
def mkStudent (i : Nat) (br : String) (yr : Nat) : Student :=
  { id := i, registerNumber := toString i, name := "S" ++ toString i,
    branch := br, «section» := "A", year := yr }

/-- Overflow scenario input: 7 year-1 CSE students. -/
def overflowStudents : List Student := (List.range 7).map (fun i => mkStudent i "CSE" 1)

/-- Two rooms of very uneven capacities 1 and 5 (custom layouts). -/
def unevenRooms : List Room := [⟨1, "R1", 1, ""⟩, ⟨2, "R2", 5, ""⟩]

/-- Exact-fit scenario input: 30 year-1 CSE students for rooms totalling 30. -/
def exactFitStudents : List Student := (List.range 30).map (fun i => mkStudent i "CSE" 1)

/-- Two custom rooms with capacities 10 and 20 (grids of exactly 10 and 20
cells, so grid size equals capacity). -/
def exactFitRooms : List Room := [⟨1, "R1", 10, ""⟩, ⟨2, "R2", 20, ""⟩]

/-- Alternation scenario: three CSE and one ECE year-1 students. -/
def altStudents : List Student :=
  [mkStudent 0 "CSE" 1, mkStudent 1 "CSE" 1, mkStudent 2 "CSE" 1, mkStudent 3 "ECE" 1]

/-- One custom room of capacity 10. -/
def altRooms : List Room := [⟨1, "R1", 10, ""⟩]

/-- The computed result of the alternation scenario. -/
def altResult : SeatingResult :=
  ((generateSeatingModel altStudents altRooms).toOption).getD default

/-- The first room of the alternation scenario result. -/
def altRoom0 : RoomRun := altResult.rooms.headD default

/-- Room-ordering scenario: rooms named R2, R10, R1 (given out of order). -/
def sortDemoRooms : List Room := [⟨2, "R2", 45, "45"⟩, ⟨10, "R10", 45, "45"⟩, ⟨1, "R1", 60, "60"⟩]

/-- Three year-1 CSE students for the room-ordering scenario. -/
def sortDemoStudents : List Student := (List.range 3).map (fun i => mkStudent i "CSE" 1)

/-- The computed result of the room-ordering scenario. -/
def sortDemoResult : SeatingResult :=
  ((generateSeatingModel sortDemoStudents sortDemoRooms).toOption).getD default

/-- A concrete pool for the lookahead scenario: two CSE students, then an
ECE student, then another CSE student, cursor at the front. -/
def demoPool : Pool :=
  ⟨[mkStudent 0 "CSE" 1, mkStudent 1 "CSE" 1, mkStudent 2 "ECE" 1, mkStudent 3 "CSE" 1], 0⟩

/-- Modelled from the claim's words (C5): the cells said to be selected,
phrased in terms of the room CAPACITY `c` — all `c` cells when `t ≥ c`,
otherwise `⌊i * (c / t)⌋` for `i = 0 … t-1`. -/
def claimSelectedCells (c t : Nat) : List Nat :=
  if c ≤ t then List.range c
  else (List.range t).map (fun i => (i * c) / t)

/-- All students in a pool's backing array satisfy `P` (swaps stay inside
one pool, so this is invariant under draws). -/
def PoolAll (p : Pool) (P : Student → Prop) : Prop :=
  ∀ s ∈ p.students, P s

/-- Purity of the four pools, as established by the `filter` calls of
`generateRoomLayoutsWithRules`: each pool holds exactly students of its year
and cohort. -/
def PoolsInv (ps : Pools) : Prop :=
  PoolAll ps.y1cse (fun s => s.year = 1 ∧ s.branch = "CSE") ∧
  PoolAll ps.y1non (fun s => s.year = 1 ∧ s.branch ≠ "CSE") ∧
  PoolAll ps.y2cse (fun s => s.year = 2 ∧ s.branch = "CSE") ∧
  PoolAll ps.y2non (fun s => s.year = 2 ∧ s.branch ≠ "CSE")

/-- The multiset of students still available (not yet consumed) across the
four pools. -/
def poolsRem (ps : Pools) : Multiset Student :=
  (ps.y1cse.remaining : Multiset Student) + (ps.y1non.remaining : Multiset Student)
    + (ps.y2cse.remaining : Multiset Student) + (ps.y2non.remaining : Multiset Student)

/-- A room's year lock is unset or one of the two literal years the source
ever writes (`roomYearLock[roomIdx] = 1` / `= 2`). -/
def LockWF (lock : Option Nat) : Prop :=
  lock = none ∨ lock = some 1 ∨ lock = some 2

/-- The alternation chain property over a room's placement sequence and its
aligned ghost trace of pool states: whenever the previous placement was a
reference-cohort (CSE) student and the current one is CSE again, the
non-CSE pool of the current student's (locked) year was already exhausted at
the moment of that placement. -/
def AltChain : Bool → List Student → List Pools → Prop
  | _, [], _ => True
  | b, st :: rest, trs =>
    (b = true → st.branch = "CSE" → (nonPoolOf (trs.headD default) st.year).remaining = []) ∧
    AltChain (st.branch == "CSE") rest trs.tail

/-! ### Basic facts about the pool draw operation -/

/-- The bounded scan is the first index inside the `fuel`-wide window whose
student has a different branch. -/
theorem lookWin_eq_findIdx (w : List Student) (b : String) :
    ∀ fuel, lookWin w b fuel = (w.take fuel).findIdx? (fun s => s.branch != b) := by
  induction w with
  | nil => intro fuel; cases fuel <;> simp [lookWin]
  | cons s rest ih =>
    intro fuel
    cases fuel with
    | zero => simp [lookWin]
    | succ f =>
      simp only [lookWin, List.take_succ_cons, List.findIdx?_cons]
      by_cases hb : (s.branch != b) = true
      · simp [hb]
      · simp only [hb, if_neg, Bool.false_eq_true, not_false_eq_true, if_false]
        rw [ih f, List.findIdx?_succ]

/-- A successful scan points inside the window at a student of a different
branch. -/
theorem lookWin_some (b : String) :
    ∀ (w : List Student) (fuel i : Nat), lookWin w b fuel = some i →
      i < w.length ∧ i < fuel ∧ (w.getD i default).branch ≠ b := by
  intro w
  induction w with
  | nil => intro fuel i h; simp [lookWin] at h
  | cons s rest ih =>
    intro fuel i h
    cases fuel with
    | zero => simp [lookWin] at h
    | succ f =>
      simp only [lookWin] at h
      by_cases hb : (s.branch != b) = true
      · simp only [hb, if_true] at h
        cases h
        refine ⟨by simp, Nat.succ_pos _, ?_⟩
        simpa [List.getD] using bne_iff_ne.mp hb
      · simp only [hb, if_false] at h
        obtain ⟨j, hj, rfl⟩ := Option.map_eq_some'.mp h
        obtain ⟨h1, h2, h3⟩ := ih f j hj
        exact ⟨by simpa using h1, by omega, by simpa [List.getD_cons_succ] using h3⟩

/-- Swapping an element to the front of a queue and popping it: the queue
`a :: t` is a permutation of `t[n]` followed by `t` with position `n`
overwritten by the old front `a`. -/
theorem cons_set_perm (t : List Student) (a : Student) (n : Nat) (hn : n < t.length) :
    (a :: t).Perm (t[n] :: t.set n a) := by
  have hdecomp : t = t.take n ++ t[n] :: t.drop (n + 1) := by
    conv_lhs => rw [← List.take_append_drop n t]
    rw [← List.getElem_cons_drop t n hn]
  have hset : t.set n a = t.take n ++ a :: t.drop (n + 1) :=
    List.set_eq_take_cons_drop a hn
  rw [hset]
  conv_lhs => rw [hdecomp]
  exact List.Perm.trans (List.Perm.cons _ List.perm_middle)
    (List.Perm.trans (List.Perm.swap _ _ _)
      (List.Perm.cons _ List.perm_middle.symm))

/-- Master case analysis for `getStudentFromPool`: either the cursor is at
the end (no student, pool untouched), or it yields a student from the
remaining queue such that the remaining queue loses exactly that student
(up to the documented front-swap reordering), and the backing array gains no
new students. -/
theorem getStudentFromPool_cases (p : Pool) (lb : Option String) :
    (p.remaining = [] ∧ getStudentFromPool p lb = (none, p)) ∨
    (∃ st p', getStudentFromPool p lb = (some st, p') ∧
      st ∈ p.remaining ∧ p.remaining.Perm (st :: p'.remaining) ∧
      ∀ s ∈ p'.students, s ∈ p.students) := by
  obtain ⟨l, k⟩ := p
  by_cases h : l.length ≤ k
  · left
    refine ⟨List.drop_eq_nil_of_le h, ?_⟩
    simp [getStudentFromPool, h]
  · right
    have hk : k < l.length := Nat.lt_of_not_le h
    have hrem : (Pool.remaining ⟨l, k⟩) = l[k] :: l.drop (k + 1) := by
      simp [Pool.remaining, List.getElem_cons_drop]
    -- the "just take the front" outcome, shared by three branches
    have front : ∀ res : Option Student × Pool,
        res = (some (l.getD k default), ⟨l, k + 1⟩) →
        ∃ st p', res = (some st, p') ∧ st ∈ Pool.remaining ⟨l, k⟩ ∧
          (Pool.remaining ⟨l, k⟩).Perm (st :: p'.remaining) ∧
          ∀ s ∈ p'.students, s ∈ l := by
      rintro _ rfl
      refine ⟨l.getD k default, ⟨l, k + 1⟩, rfl, ?_, ?_, fun s hs => hs⟩
      · rw [hrem, List.getD_eq_getElem l _ hk]; exact List.mem_cons_self _ _
      · rw [hrem, List.getD_eq_getElem l _ hk]
        exact List.Perm.refl _
    match lb with
    | none =>
      have := front _ rfl
      simpa [getStudentFromPool, h] using this
    | some b =>
      rcases hw : lookWindow l k b with _ | j
      · have := front _ rfl
        simpa [getStudentFromPool, h, hw] using this
      · -- found a different branch at absolute index j = i + k
        obtain ⟨i, hi, rfl⟩ := Option.map_eq_some'.mp hw
        obtain ⟨hilt, -, -⟩ := lookWin_some b _ _ _ hi
        have hik : i + k < l.length := by
          simp only [List.length_drop] at hilt; omega
        by_cases hi0 : i + k = k
        · -- the source skips the swap when the found index is the cursor
          have := front _ rfl
          have hg : l.getD (i + k) default = l.getD k default := by rw [hi0]
          simpa [getStudentFromPool, h, hw, hi0, hg] using this
        · have hipos : 1 ≤ i := by omega
          have htlen : i - 1 < (l.drop (k + 1)).length := by
            simp only [List.length_drop]; omega
          have hst : l.getD (i + k) default = (l.drop (k + 1))[i - 1] := by
            rw [List.getD_eq_getElem l _ hik, List.getElem_drop]
            congr 1; omega
          have harr : (Pool.remaining ⟨listSwap l k (i + k), k + 1⟩)
              = (l.drop (k + 1)).set (i - 1) l[k] := by
            simp only [Pool.remaining, listSwap]
            rw [List.drop_set, if_neg (by omega), List.drop_set, if_pos (by omega),
              List.getD_eq_getElem l _ hk]
            congr 1
            omega
          refine ⟨l.getD (i + k) default, ⟨listSwap l k (i + k), k + 1⟩, ?_, ?_, ?_, ?_⟩
          · simp [getStudentFromPool, h, hw, hi0]
          · rw [hst, hrem]
            exact List.mem_cons_of_mem _ (List.getElem_mem htlen)
          · rw [harr, hrem, hst]
            exact cons_set_perm _ _ _ htlen
          · intro s hs
            simp only [listSwap] at hs
            rcases List.mem_or_eq_of_mem_set hs with hs2 | rfl
            · rcases List.mem_or_eq_of_mem_set hs2 with hs3 | rfl
              · exact hs3
              · rw [List.getD_eq_getElem l _ hik]; exact List.getElem_mem hik
            · rw [List.getD_eq_getElem l _ hk]; exact List.getElem_mem hk

/-! ### The selection function -/

/-- When the selection function finds no student, neither the pools nor the
lock change (a failed `getStudentFromPool` call leaves its pool untouched). -/
theorem getNext_none_spec (ps : Pools) (lock : Option Nat) (last : Bool)
    (lb : Option String) (ps' : Pools) (lock' : Option Nat)
    (h : getNextStudentWithStrictRules ps lock true last lb = (none, ps', lock')) :
    ps' = ps ∧ lock' = lock := by
  cases lock with
  | some y =>
    simp only [getNextStudentWithStrictRules] at h
    cases last with
    | true =>
      simp only [if_pos, if_true] at h
      rcases getStudentFromPool_cases (nonPoolOf ps y) lb with ⟨-, heq1⟩ | ⟨st1, p1, heq1, -, -, -⟩ <;>
        rw [heq1] at h
      · rcases getStudentFromPool_cases (csePoolOf ps y) lb with ⟨-, heq2⟩ | ⟨st2, p2, heq2, -, -, -⟩ <;>
          rw [heq2] at h
        · simp at h; exact ⟨h.1.symm, h.2.symm⟩
        · simp at h
      · simp at h
    | false =>
      simp only [if_pos, if_true, Bool.false_eq_true, if_false] at h
      rcases getStudentFromPool_cases (csePoolOf ps y) lb with ⟨-, heq1⟩ | ⟨st1, p1, heq1, -, -, -⟩ <;>
        rw [heq1] at h
      · rcases getStudentFromPool_cases (nonPoolOf ps y) lb with ⟨-, heq2⟩ | ⟨st2, p2, heq2, -, -, -⟩ <;>
          rw [heq2] at h
        · simp at h; exact ⟨h.1.symm, h.2.symm⟩
        · simp at h
      · simp at h
  | none =>
    simp only [getNextStudentWithStrictRules] at h
    cases last with
    | true =>
      simp only [Bool.not_true, Bool.false_eq_true, if_false] at h
      rcases getStudentFromPool_cases ps.y1non lb with ⟨-, heq1⟩ | ⟨st1, p1, heq1, -, -, -⟩ <;>
        rw [heq1] at h
      · rcases getStudentFromPool_cases ps.y2non lb with ⟨-, heq2⟩ | ⟨st2, p2, heq2, -, -, -⟩ <;>
          rw [heq2] at h
        · simp at h; exact ⟨h.1.symm, h.2.symm⟩
        · simp at h
      · simp at h
    | false =>
      simp only [Bool.not_false, if_true] at h
      rcases getStudentFromPool_cases ps.y1cse lb with ⟨-, heq1⟩ | ⟨st1, p1, heq1, -, -, -⟩ <;>
        rw [heq1] at h
      · rcases getStudentFromPool_cases ps.y2cse lb with ⟨-, heq2⟩ | ⟨st2, p2, heq2, -, -, -⟩ <;>
          rw [heq2] at h
        · rcases getStudentFromPool_cases ps.y1non lb with ⟨-, heq3⟩ | ⟨st3, p3, heq3, -, -, -⟩ <;>
            rw [heq3] at h
          · rcases getStudentFromPool_cases ps.y2non lb with ⟨-, heq4⟩ | ⟨st4, p4, heq4, -, -, -⟩ <;>
              rw [heq4] at h
            · simp at h; exact ⟨h.1.symm, h.2.symm⟩
            · simp at h
          · simp at h
        · simp at h
      · simp at h


/-- A student drawn from the `Year1-NonCSE` pool: purity is preserved, the
available multiset loses exactly that student, and the student is a year-1
non-CSE student. -/
theorem draw_y1non (ps : Pools) (st : Student) (p1 : Pool)
    (hmem : st ∈ ps.y1non.remaining) (hperm : ps.y1non.remaining.Perm (st :: p1.remaining))
    (hsub : ∀ s ∈ p1.students, s ∈ ps.y1non.students) (hinv : PoolsInv ps) :
    PoolsInv { ps with y1non := p1 } ∧
    poolsRem ps = st ::ₘ poolsRem { ps with y1non := p1 } ∧
    st.year = 1 ∧ st.branch ≠ "CSE" := by
  obtain ⟨h1, h2, h3, h4⟩ := hinv
  have hstm : st ∈ ps.y1non.students := List.mem_of_mem_drop hmem
  have hms : (ps.y1non.remaining : Multiset Student) = st ::ₘ (p1.remaining : Multiset Student) := by
    rw [Multiset.coe_eq_coe.mpr hperm, ← Multiset.cons_coe]
  refine ⟨⟨h1, fun s hs => h2 s (hsub s hs), h3, h4⟩, ?_, (h2 st hstm).1, (h2 st hstm).2⟩
  simp only [poolsRem]
  rw [hms]
  simp only [Multiset.cons_add, Multiset.add_cons]

/-- A student drawn from the `Year1-CSE` pool. -/
theorem draw_y1cse (ps : Pools) (st : Student) (p1 : Pool)
    (hmem : st ∈ ps.y1cse.remaining) (hperm : ps.y1cse.remaining.Perm (st :: p1.remaining))
    (hsub : ∀ s ∈ p1.students, s ∈ ps.y1cse.students) (hinv : PoolsInv ps) :
    PoolsInv { ps with y1cse := p1 } ∧
    poolsRem ps = st ::ₘ poolsRem { ps with y1cse := p1 } ∧
    st.year = 1 ∧ st.branch = "CSE" := by
  obtain ⟨h1, h2, h3, h4⟩ := hinv
  have hstm : st ∈ ps.y1cse.students := List.mem_of_mem_drop hmem
  have hms : (ps.y1cse.remaining : Multiset Student) = st ::ₘ (p1.remaining : Multiset Student) := by
    rw [Multiset.coe_eq_coe.mpr hperm, ← Multiset.cons_coe]
  refine ⟨⟨fun s hs => h1 s (hsub s hs), h2, h3, h4⟩, ?_, (h1 st hstm).1, (h1 st hstm).2⟩
  simp only [poolsRem]
  rw [hms]
  simp only [Multiset.cons_add, Multiset.add_cons]

/-- A student drawn from the `Year2-NonCSE` pool. -/
theorem draw_y2non (ps : Pools) (st : Student) (p1 : Pool)
    (hmem : st ∈ ps.y2non.remaining) (hperm : ps.y2non.remaining.Perm (st :: p1.remaining))
    (hsub : ∀ s ∈ p1.students, s ∈ ps.y2non.students) (hinv : PoolsInv ps) :
    PoolsInv { ps with y2non := p1 } ∧
    poolsRem ps = st ::ₘ poolsRem { ps with y2non := p1 } ∧
    st.year = 2 ∧ st.branch ≠ "CSE" := by
  obtain ⟨h1, h2, h3, h4⟩ := hinv
  have hstm : st ∈ ps.y2non.students := List.mem_of_mem_drop hmem
  have hms : (ps.y2non.remaining : Multiset Student) = st ::ₘ (p1.remaining : Multiset Student) := by
    rw [Multiset.coe_eq_coe.mpr hperm, ← Multiset.cons_coe]
  refine ⟨⟨h1, h2, h3, fun s hs => h4 s (hsub s hs)⟩, ?_, (h4 st hstm).1, (h4 st hstm).2⟩
  simp only [poolsRem]
  rw [hms]
  simp only [Multiset.cons_add, Multiset.add_cons]

/-- A student drawn from the `Year2-CSE` pool. -/
theorem draw_y2cse (ps : Pools) (st : Student) (p1 : Pool)
    (hmem : st ∈ ps.y2cse.remaining) (hperm : ps.y2cse.remaining.Perm (st :: p1.remaining))
    (hsub : ∀ s ∈ p1.students, s ∈ ps.y2cse.students) (hinv : PoolsInv ps) :
    PoolsInv { ps with y2cse := p1 } ∧
    poolsRem ps = st ::ₘ poolsRem { ps with y2cse := p1 } ∧
    st.year = 2 ∧ st.branch = "CSE" := by
  obtain ⟨h1, h2, h3, h4⟩ := hinv
  have hstm : st ∈ ps.y2cse.students := List.mem_of_mem_drop hmem
  have hms : (ps.y2cse.remaining : Multiset Student) = st ::ₘ (p1.remaining : Multiset Student) := by
    rw [Multiset.coe_eq_coe.mpr hperm, ← Multiset.cons_coe]
  refine ⟨⟨h1, h2, fun s hs => h3 s (hsub s hs), h4⟩, ?_, (h3 st hstm).1, (h3 st hstm).2⟩
  simp only [poolsRem]
  rw [hms]
  simp only [Multiset.cons_add, Multiset.add_cons]


@[simp] theorem csePoolOf_one (ps : Pools) : csePoolOf ps 1 = ps.y1cse := rfl
@[simp] theorem csePoolOf_two (ps : Pools) : csePoolOf ps 2 = ps.y2cse := rfl
@[simp] theorem nonPoolOf_one (ps : Pools) : nonPoolOf ps 1 = ps.y1non := rfl
@[simp] theorem nonPoolOf_two (ps : Pools) : nonPoolOf ps 2 = ps.y2non := rfl
@[simp] theorem setCsePool_one (ps : Pools) (p : Pool) : setCsePool ps 1 p = { ps with y1cse := p } := rfl
@[simp] theorem setCsePool_two (ps : Pools) (p : Pool) : setCsePool ps 2 p = { ps with y2cse := p } := rfl
@[simp] theorem setNonPool_one (ps : Pools) (p : Pool) : setNonPool ps 1 p = { ps with y1non := p } := rfl
@[simp] theorem setNonPool_two (ps : Pools) (p : Pool) : setNonPool ps 2 p = { ps with y2non := p } := rfl

/-- Master specification of a successful draw of the selection function
(as invoked by the engine, i.e. with alternation on): pool purity is
preserved, the available multiset loses exactly the returned student, the
room lock ends up set to the student's year, an already-set lock forces the
student's year, and a reference-cohort (CSE) student returned right after a
CSE placement in a locked room proves that the locked year's non-CSE pool
was exhausted at that moment. -/
theorem getNext_some_spec (ps : Pools) (lock : Option Nat) (last : Bool)
    (lb : Option String) (st : Student) (ps' : Pools) (lock' : Option Nat)
    (hinv : PoolsInv ps) (hwf : LockWF lock)
    (h : getNextStudentWithStrictRules ps lock true last lb = (some st, ps', lock')) :
    PoolsInv ps' ∧ LockWF lock' ∧ poolsRem ps = st ::ₘ poolsRem ps' ∧
    lock' = some st.year ∧
    (∀ y, lock = some y → y = st.year) ∧
    (∀ y, lock = some y → last = true → st.branch = "CSE" →
      (nonPoolOf ps y).remaining = []) := by
  rcases hwf with rfl | rfl | rfl
  · -- no year lock yet
    simp only [getNextStudentWithStrictRules] at h
    cases last with
    | true =>
      simp only [Bool.not_true, Bool.false_eq_true, if_false] at h
      rcases getStudentFromPool_cases ps.y1non lb with ⟨hemp1, heq1⟩ | ⟨st1, p1, heq1, hm1, hp1, hs1⟩ <;>
        rw [heq1] at h
      · rcases getStudentFromPool_cases ps.y2non lb with ⟨hemp2, heq2⟩ | ⟨st2, p2, heq2, hm2, hp2, hs2⟩ <;>
          rw [heq2] at h
        · simp at h
        · simp at h
          obtain ⟨h1, rfl, rfl⟩ := h
          obtain rfl := h1.symm
          obtain ⟨hi, hrem, hyr, hbr⟩ := draw_y2non ps st p2 hm2 hp2 hs2 hinv
          refine ⟨hi, Or.inr (Or.inr rfl), hrem, by rw [hyr], ?_, ?_⟩ <;>
            exact fun y hy => nomatch hy
      · simp at h
        obtain ⟨h1, rfl, rfl⟩ := h
        obtain rfl := h1.symm
        obtain ⟨hi, hrem, hyr, hbr⟩ := draw_y1non ps st p1 hm1 hp1 hs1 hinv
        refine ⟨hi, Or.inr (Or.inl rfl), hrem, by rw [hyr], ?_, ?_⟩ <;>
            exact fun y hy => nomatch hy
    | false =>
      simp only [Bool.not_false, if_true] at h
      rcases getStudentFromPool_cases ps.y1cse lb with ⟨hemp1, heq1⟩ | ⟨st1, p1, heq1, hm1, hp1, hs1⟩ <;>
        rw [heq1] at h
      · rcases getStudentFromPool_cases ps.y2cse lb with ⟨hemp2, heq2⟩ | ⟨st2, p2, heq2, hm2, hp2, hs2⟩ <;>
          rw [heq2] at h
        · rcases getStudentFromPool_cases ps.y1non lb with ⟨hemp3, heq3⟩ | ⟨st3, p3, heq3, hm3, hp3, hs3⟩ <;>
            rw [heq3] at h
          · rcases getStudentFromPool_cases ps.y2non lb with ⟨hemp4, heq4⟩ | ⟨st4, p4, heq4, hm4, hp4, hs4⟩ <;>
              rw [heq4] at h
            · simp at h
            · simp at h
              obtain ⟨h1, rfl, rfl⟩ := h
              obtain rfl := h1.symm
              obtain ⟨hi, hrem, hyr, hbr⟩ := draw_y2non ps st p4 hm4 hp4 hs4 hinv
              refine ⟨hi, Or.inr (Or.inr rfl), hrem, by rw [hyr], ?_, ?_⟩ <;>
                exact fun y hy => nomatch hy
          · simp at h
            obtain ⟨h1, rfl, rfl⟩ := h
            obtain rfl := h1.symm
            obtain ⟨hi, hrem, hyr, hbr⟩ := draw_y1non ps st p3 hm3 hp3 hs3 hinv
            refine ⟨hi, Or.inr (Or.inl rfl), hrem, by rw [hyr], ?_, ?_⟩ <;>
              exact fun y hy => nomatch hy
        · simp at h
          obtain ⟨h1, rfl, rfl⟩ := h
          obtain rfl := h1.symm
          obtain ⟨hi, hrem, hyr, hbr⟩ := draw_y2cse ps st p2 hm2 hp2 hs2 hinv
          refine ⟨hi, Or.inr (Or.inr rfl), hrem, by rw [hyr], ?_, ?_⟩ <;>
            exact fun y hy => nomatch hy
      · simp at h
        obtain ⟨h1, rfl, rfl⟩ := h
        obtain rfl := h1.symm
        obtain ⟨hi, hrem, hyr, hbr⟩ := draw_y1cse ps st p1 hm1 hp1 hs1 hinv
        refine ⟨hi, Or.inr (Or.inl rfl), hrem, by rw [hyr], ?_, ?_⟩ <;>
            exact fun y hy => nomatch hy
  · -- locked to year 1
    simp only [getNextStudentWithStrictRules, if_true, csePoolOf_one, nonPoolOf_one,
      setCsePool_one, setNonPool_one] at h
    cases last with
    | true =>
      simp only [if_true] at h
      rcases getStudentFromPool_cases ps.y1non lb with ⟨hemp1, heq1⟩ | ⟨st1, p1, heq1, hm1, hp1, hs1⟩ <;>
        rw [heq1] at h
      · rcases getStudentFromPool_cases ps.y1cse lb with ⟨hemp2, heq2⟩ | ⟨st2, p2, heq2, hm2, hp2, hs2⟩ <;>
          rw [heq2] at h
        · simp at h
        · simp at h
          obtain ⟨h1, rfl, rfl⟩ := h
          obtain rfl := h1.symm
          obtain ⟨hi, hrem, hyr, hbr⟩ := draw_y1cse ps st p2 hm2 hp2 hs2 hinv
          refine ⟨hi, Or.inr (Or.inl rfl), hrem, by rw [hyr], ?_, ?_⟩
          · intro y hy; cases hy; exact hyr.symm
          · intro y hy _ _; cases hy; simpa using hemp1
      · simp at h
        obtain ⟨h1, rfl, rfl⟩ := h
        obtain rfl := h1.symm
        obtain ⟨hi, hrem, hyr, hbr⟩ := draw_y1non ps st p1 hm1 hp1 hs1 hinv
        refine ⟨hi, Or.inr (Or.inl rfl), hrem, by rw [hyr], ?_, ?_⟩
        · intro y hy; cases hy; exact hyr.symm
        · intro y hy _ hcse; exact absurd hcse hbr
    | false =>
      simp only [Bool.false_eq_true, if_false] at h
      rcases getStudentFromPool_cases ps.y1cse lb with ⟨hemp1, heq1⟩ | ⟨st1, p1, heq1, hm1, hp1, hs1⟩ <;>
        rw [heq1] at h
      · rcases getStudentFromPool_cases ps.y1non lb with ⟨hemp2, heq2⟩ | ⟨st2, p2, heq2, hm2, hp2, hs2⟩ <;>
          rw [heq2] at h
        · simp at h
        · simp at h
          obtain ⟨h1, rfl, rfl⟩ := h
          obtain rfl := h1.symm
          obtain ⟨hi, hrem, hyr, hbr⟩ := draw_y1non ps st p2 hm2 hp2 hs2 hinv
          refine ⟨hi, Or.inr (Or.inl rfl), hrem, by rw [hyr], ?_, ?_⟩
          · intro y hy; cases hy; exact hyr.symm
          · intro y _ hlast; exact absurd hlast (by simp)
      · simp at h
        obtain ⟨h1, rfl, rfl⟩ := h
        obtain rfl := h1.symm
        obtain ⟨hi, hrem, hyr, hbr⟩ := draw_y1cse ps st p1 hm1 hp1 hs1 hinv
        refine ⟨hi, Or.inr (Or.inl rfl), hrem, by rw [hyr], ?_, ?_⟩
        · intro y hy; cases hy; exact hyr.symm
        · intro y _ hlast; exact absurd hlast (by simp)
  · -- locked to year 2
    simp only [getNextStudentWithStrictRules, if_true, csePoolOf_two, nonPoolOf_two,
      setCsePool_two, setNonPool_two] at h
    cases last with
    | true =>
      simp only [if_true] at h
      rcases getStudentFromPool_cases ps.y2non lb with ⟨hemp1, heq1⟩ | ⟨st1, p1, heq1, hm1, hp1, hs1⟩ <;>
        rw [heq1] at h
      · rcases getStudentFromPool_cases ps.y2cse lb with ⟨hemp2, heq2⟩ | ⟨st2, p2, heq2, hm2, hp2, hs2⟩ <;>
          rw [heq2] at h
        · simp at h
        · simp at h
          obtain ⟨h1, rfl, rfl⟩ := h
          obtain rfl := h1.symm
          obtain ⟨hi, hrem, hyr, hbr⟩ := draw_y2cse ps st p2 hm2 hp2 hs2 hinv
          refine ⟨hi, Or.inr (Or.inr rfl), hrem, by rw [hyr], ?_, ?_⟩
          · intro y hy; cases hy; exact hyr.symm
          · intro y hy _ _; cases hy; simpa using hemp1
      · simp at h
        obtain ⟨h1, rfl, rfl⟩ := h
        obtain rfl := h1.symm
        obtain ⟨hi, hrem, hyr, hbr⟩ := draw_y2non ps st p1 hm1 hp1 hs1 hinv
        refine ⟨hi, Or.inr (Or.inr rfl), hrem, by rw [hyr], ?_, ?_⟩
        · intro y hy; cases hy; exact hyr.symm
        · intro y hy _ hcse; exact absurd hcse hbr
    | false =>
      simp only [Bool.false_eq_true, if_false] at h
      rcases getStudentFromPool_cases ps.y2cse lb with ⟨hemp1, heq1⟩ | ⟨st1, p1, heq1, hm1, hp1, hs1⟩ <;>
        rw [heq1] at h
      · rcases getStudentFromPool_cases ps.y2non lb with ⟨hemp2, heq2⟩ | ⟨st2, p2, heq2, hm2, hp2, hs2⟩ <;>
          rw [heq2] at h
        · simp at h
        · simp at h
          obtain ⟨h1, rfl, rfl⟩ := h
          obtain rfl := h1.symm
          obtain ⟨hi, hrem, hyr, hbr⟩ := draw_y2non ps st p2 hm2 hp2 hs2 hinv
          refine ⟨hi, Or.inr (Or.inr rfl), hrem, by rw [hyr], ?_, ?_⟩
          · intro y hy; cases hy; exact hyr.symm
          · intro y _ hlast; exact absurd hlast (by simp)
      · simp at h
        obtain ⟨h1, rfl, rfl⟩ := h
        obtain rfl := h1.symm
        obtain ⟨hi, hrem, hyr, hbr⟩ := draw_y2cse ps st p1 hm1 hp1 hs1 hinv
        refine ⟨hi, Or.inr (Or.inr rfl), hrem, by rw [hyr], ?_, ?_⟩
        · intro y hy; cases hy; exact hyr.symm
        · intro y _ hlast; exact absurd hlast (by simp)


/-! ### The per-room fill loop -/

/-- A row of skipped cells contributes no placed students. -/
theorem filterMap_id_replicate_none (n : Nat) :
    (List.replicate n (none : Option Student)).filterMap id = [] := by
  induction n with
  | zero => rfl
  | succ m ih => simp [List.replicate_succ, ih]

/-- Master invariant of the per-room fill loop: pool purity and lock
well-formedness are preserved; the pools lose exactly the multiset of placed
students; under a year lock every placed student has the locked year; with no
initial lock all placed students of the room share one year; the ghost trace
is aligned with the placement sequence; and the alternation chain property
holds. -/
theorem fillLoop_spec (cols target : Nat) (toFill : List Nat) :
    ∀ (r p placed : Nat) (prev : Option Student) (last : Bool) (ps : Pools)
      (lock : Option Nat),
    PoolsInv ps → LockWF lock → (last = true → lock ≠ none) →
    PoolsInv (fillLoop cols target toFill r p placed prev last ps lock).2.2.1 ∧
    LockWF (fillLoop cols target toFill r p placed prev last ps lock).2.2.2 ∧
    poolsRem ps =
      ↑((fillLoop cols target toFill r p placed prev last ps lock).1.filterMap id)
        + poolsRem (fillLoop cols target toFill r p placed prev last ps lock).2.2.1 ∧
    (∀ y, lock = some y →
      ∀ s ∈ (fillLoop cols target toFill r p placed prev last ps lock).1.filterMap id,
        s.year = y) ∧
    (lock = none →
      ∀ s1 ∈ (fillLoop cols target toFill r p placed prev last ps lock).1.filterMap id,
      ∀ s2 ∈ (fillLoop cols target toFill r p placed prev last ps lock).1.filterMap id,
        s1.year = s2.year) ∧
    (fillLoop cols target toFill r p placed prev last ps lock).2.1.length =
      ((fillLoop cols target toFill r p placed prev last ps lock).1.filterMap id).length ∧
    AltChain last ((fillLoop cols target toFill r p placed prev last ps lock).1.filterMap id)
      (fillLoop cols target toFill r p placed prev last ps lock).2.1 := by
  intro r
  induction r with
  | zero =>
    intro p placed prev last ps lock hinv hwf hl
    simp only [fillLoop, List.filterMap_nil]
    refine ⟨hinv, hwf, by simp, by simp, by simp, rfl, trivial⟩
  | succ r ih =>
    intro p placed prev last ps lock hinv hwf hl
    by_cases hc : toFill.contains p
    · -- a cell selected for filling
      by_cases ht : target ≤ placed
      · -- room target reached: break, rest of the grid stays empty
        simp only [fillLoop, hc, Bool.not_true, Bool.false_eq_true, if_false, ht, if_true,
          if_pos, filterMap_id_replicate_none]
        refine ⟨hinv, hwf, by simp, by simp, by simp, rfl, trivial⟩
      · rcases hdraw : getNextStudentWithStrictRules ps lock true last
            (if p % cols == 0 then none else prev.map (fun s => s.branch)) with ⟨os, ps', lock'⟩
        cases os with
        | none =>
          -- no further student: break
          simp only [fillLoop, hc, Bool.not_true, Bool.false_eq_true, if_false, ht, if_neg,
            hdraw, filterMap_id_replicate_none]
          refine ⟨hinv, hwf, by simp, by simp, by simp, rfl, trivial⟩
        | some st =>
          obtain ⟨hinv', hwf', hms, hlock', hforce, halt⟩ :=
            getNext_some_spec ps lock last _ st ps' lock' hinv hwf hdraw
          have hl' : (st.branch == "CSE") = true → lock' ≠ none := by
            intro _; rw [hlock']; exact Option.some_ne_none _
          obtain ⟨ihA, ihB, ihC, ihD, ihE, ihF, ihG⟩ :=
            ih (p + 1) (placed + 1) (some st) (st.branch == "CSE") ps' lock' hinv' hwf' hl'
          simp only [fillLoop, hc, Bool.not_true, Bool.false_eq_true, if_false, ht, if_neg,
            hdraw, List.filterMap_cons, id_eq]
          refine ⟨ihA, ihB, ?_, ?_, ?_, ?_, ?_⟩
          · rw [hms, ihC, ← Multiset.cons_coe, Multiset.cons_add]
          · intro y hy s hs
            rcases List.mem_cons.mp hs with rfl | hs'
            · exact ((hforce y hy).symm ▸ rfl)
            · exact ihD y (by rw [hlock', hforce y hy]) s hs'
          · intro hnone s1 hs1 s2 hs2
            have hall : ∀ s ∈ (fillLoop cols target toFill r (p + 1) (placed + 1) (some st)
                (st.branch == "CSE") ps' lock').1.filterMap id, s.year = st.year :=
              fun s hs => ihD st.year hlock' s hs
            rcases List.mem_cons.mp hs1 with rfl | hs1' <;>
              rcases List.mem_cons.mp hs2 with rfl | hs2'
            · rfl
            · exact (hall s2 hs2').symm
            · exact hall s1 hs1'
            · rw [hall s1 hs1', hall s2 hs2']
          · simpa using ihF
          · refine ⟨?_, ?_⟩
            · intro hlast hcse
              rcases lock with _ | y
              · exact absurd rfl (hl hlast)
              · have hy : y = st.year := hforce y rfl
                simpa [List.headD, hy] using halt y rfl hlast hcse
            · simpa using ihG
    · -- cell left as a structural gap
      obtain ⟨ihA, ihB, ihC, ihD, ihE, ihF, ihG⟩ :=
        ih (p + 1) placed none last ps lock hinv hwf hl
      simp only [fillLoop, hc, Bool.not_false, if_true, List.filterMap_cons]
      exact ⟨ihA, ihB, ihC, ihD, ihE, ihF, ihG⟩


/-! ### The room loop -/

/-- Master invariant of the room loop: purity of the shared pools is
preserved across rooms, the pools lose exactly the students placed in all
grids, every room's placements are of a single year and satisfy the
alternation chain (each room starts unlocked with `lastWasCSE = false`),
and room names are emitted in processing order. -/
theorem processRooms_spec :
    ∀ (rooms : List Room) (targets : List Nat) (ps : Pools), PoolsInv ps →
    PoolsInv (processRooms rooms targets ps).2 ∧
    poolsRem ps = ↑(((processRooms rooms targets ps).1.map RoomRun.placed).flatten)
      + poolsRem (processRooms rooms targets ps).2 ∧
    (∀ rr ∈ (processRooms rooms targets ps).1,
      (∀ s1 ∈ rr.placed, ∀ s2 ∈ rr.placed, s1.year = s2.year) ∧
      rr.trace.length = rr.placed.length ∧
      AltChain false rr.placed rr.trace) ∧
    (processRooms rooms targets ps).1.map RoomRun.roomName = rooms.map Room.name := by
  intro rooms
  induction rooms with
  | nil =>
    intro targets ps hinv
    exact ⟨hinv, by simp [processRooms], by simp [processRooms], by simp [processRooms]⟩
  | cons room rest ihr =>
    intro targets ps hinv
    obtain ⟨flA, flB, flC, flD, flE, flF, flG⟩ :=
      fillLoop_spec (roomDims room).2 (targets.headD 0)
        (calculateSeatPositions (roomDims room).1 (roomDims room).2 (targets.headD 0))
        ((roomDims room).1 * (roomDims room).2) 0 0 none false ps none hinv
        (Or.inl rfl) (fun h => nomatch h)
    obtain ⟨ihA, ihB, ihC, ihD⟩ := ihr targets.tail _ flA
    simp only [processRooms]
    refine ⟨ihA, ?_, ?_, ?_⟩
    · simp only [List.map_cons, List.flatten_cons, RoomRun.placed]
      rw [flC, ihB, ← Multiset.coe_add, add_assoc]
    · intro rr hrr
      rcases List.mem_cons.mp hrr with rfl | hrr'
      · exact ⟨fun s1 h1 s2 h2 => flE rfl s1 h1 s2 h2, by simpa [RoomRun.placed] using flF,
          by simpa [RoomRun.placed] using flG⟩
      · exact ihC rr hrr'
    · simpa using ihD


/-! ### The pipeline -/

/-- The pools built by `generateRoomLayoutsWithRules` are pure: year and
cohort of every pooled student match the pool's key. -/
theorem mkPools_inv (l : List Student) : PoolsInv (mkPools l) := by
  refine ⟨?_, ?_, ?_, ?_⟩ <;> intro s hs <;>
    simp only [mkPools, List.mem_filter, bne_iff_ne, ne_eq, beq_iff_eq] at hs
  · exact ⟨hs.1.2, hs.2⟩
  · exact ⟨hs.1.2, hs.2⟩
  · exact ⟨hs.1.2, hs.2⟩
  · exact ⟨hs.1.2, hs.2⟩

/-- Students of years one and two are two disjoint sublists of the input. -/
theorem filter_two_years_le (l : List Student) :
    (↑(l.filter (fun s => s.year == 1)) : Multiset Student)
      + ↑(l.filter (fun s => s.year == 2)) ≤ ↑l := by
  induction l with
  | nil => simp
  | cons a tl ih =>
    by_cases h1 : a.year = 1
    · have h2 : ¬(a.year == 2) = true := by simp [h1]
      simp only [List.filter_cons, h1, if_pos, h2, if_neg, not_false_eq_true,
        beq_self_eq_true, if_true]
      rw [← Multiset.cons_coe, ← Multiset.cons_coe, Multiset.cons_add]
      exact Multiset.cons_le_cons a ih
    · by_cases h2 : a.year = 2
      · have h1b : ¬(a.year == 1) = true := by simp [h1]
        simp only [List.filter_cons, h1b, if_neg, not_false_eq_true, h2,
          beq_self_eq_true, if_true]
        rw [← Multiset.cons_coe, ← Multiset.cons_coe, Multiset.add_cons]
        exact Multiset.cons_le_cons a ih
      · have h1b : ¬(a.year == 1) = true := by simp [h1]
        have h2b : ¬(a.year == 2) = true := by simp [h2]
        simp only [List.filter_cons, h1b, h2b, if_neg, not_false_eq_true]
        rw [← Multiset.cons_coe]
        exact le_trans ih (Multiset.le_cons_self _ _)

/-- Splitting a list into its CSE and non-CSE parts preserves the multiset. -/
theorem filter_split_branch (x : List Student) :
    (↑(x.filter (fun s => s.branch == "CSE")) : Multiset Student)
      + ↑(x.filter (fun s => s.branch != "CSE")) = ↑x := by
  rw [Multiset.coe_add, Multiset.coe_eq_coe]
  exact List.filter_append_perm _ x

/-- The initial pool contents are (at most) the seated student list: nothing
is duplicated across pools, and only students of years 1 and 2 are pooled at
all. -/
theorem poolsRem_mkPools_le (l : List Student) :
    poolsRem (mkPools l) ≤ (↑l : Multiset Student) := by
  have hy1 := filter_split_branch (l.filter (fun s => s.year == 1))
  have hy2 := filter_split_branch (l.filter (fun s => s.year == 2))
  have hrem : poolsRem (mkPools l)
      = (↑(l.filter (fun s => s.year == 1)) : Multiset Student)
        + ↑(l.filter (fun s => s.year == 2)) := by
    simp only [poolsRem, mkPools, Pool.remaining, List.drop_zero]
    rw [add_assoc ((↑((l.filter (fun s => s.year == 1)).filter (fun s => s.branch == "CSE")) :
      Multiset Student) + ↑((l.filter (fun s => s.year == 1)).filter (fun s => s.branch != "CSE")))]
    rw [hy1, hy2]
  rw [hrem]
  exact filter_two_years_le l

/-- Elimination principle for a successful pipeline run: a successful result
is exactly the engine output on the numerically sorted rooms and the
overflow-truncated student list. -/
theorem generateSeatingModel_ok_elim (students : List Student) (rooms : List Room)
    (res : SeatingResult) (h : generateSeatingModel students rooms = .ok res) :
    (overflowSplit students ((sortRoomsNumeric rooms).map Room.capacity).sum).1 ≠ [] ∧
    res.rooms = (processRooms (sortRoomsNumeric rooms)
      (distributeStudentsAcrossRooms
        (overflowSplit students ((sortRoomsNumeric rooms).map Room.capacity).sum).1.length
        (sortRoomsNumeric rooms))
      (mkPools (overflowSplit students ((sortRoomsNumeric rooms).map Room.capacity).sum).1)).1 ∧
    res.finalPools = (processRooms (sortRoomsNumeric rooms)
      (distributeStudentsAcrossRooms
        (overflowSplit students ((sortRoomsNumeric rooms).map Room.capacity).sum).1.length
        (sortRoomsNumeric rooms))
      (mkPools (overflowSplit students ((sortRoomsNumeric rooms).map Room.capacity).sum).1)).2 ∧
    res.unassignedStudents =
      (overflowSplit students ((sortRoomsNumeric rooms).map Room.capacity).sum).2.map Student.id := by
  unfold generateSeatingModel at h
  by_cases h1 : students.isEmpty
  · simp [h1] at h
  · by_cases h2 : rooms.isEmpty
    · simp [h1, h2] at h
    · simp only [h1, Bool.false_eq_true, if_false, h2] at h
      unfold generateRoomLayoutsWithRules at h
      by_cases h3 : (overflowSplit students ((sortRoomsNumeric rooms).map Room.capacity).sum).1.isEmpty
      · simp [h3] at h
      · simp only [h3, Bool.false_eq_true, if_false] at h
        cases h
        exact ⟨fun hnil => h3 (by simp [hnil]), rfl, rfl, rfl⟩


/-! ### Auxiliary list lemmas for the claim statements -/

theorem getD_tail {α : Type} (l : List α) (n : Nat) (d : α) :
    l.tail.getD n d = l.getD (n + 1) d := by
  cases l <;> simp [List.getD_cons_succ]

theorem headD_eq_getD {α : Type} (l : List α) (d : α) : l.headD d = l.getD 0 d := by
  cases l <;> simp

/-- From the alternation chain to its pairwise reading: two adjacent CSE
placements force the non-CSE pool of the later student's year to have been
exhausted in the pool state recorded at the later placement. -/
theorem altChain_pair (seq : List Student) :
    ∀ (tr : List Pools) (b : Bool), AltChain b seq tr →
    ∀ i : Nat, i + 1 < seq.length →
      (seq.getD i default).branch = "CSE" →
      (seq.getD (i + 1) default).branch = "CSE" →
      (nonPoolOf (tr.getD (i + 1) default) (seq.getD (i + 1) default).year).remaining = [] := by
  induction seq with
  | nil => intro tr b _ i hi; simp at hi
  | cons st rest ih =>
    intro tr b h i hi hc1 hc2
    obtain ⟨hhead, htail⟩ := h
    cases i with
    | zero =>
      cases rest with
      | nil => simp at hi
      | cons st2 rest2 =>
        obtain ⟨hhead2, -⟩ := htail
        have hb : (st.branch == "CSE") = true := by
          simpa using hc1
        have hc2' : st2.branch = "CSE" := by simpa [List.getD_cons_succ] using hc2
        have := hhead2 hb hc2'
        rw [headD_eq_getD, getD_tail] at this
        simpa [List.getD_cons_succ, hc2'] using this
    | succ j =>
      have := ih tr.tail (st.branch == "CSE") htail j
        (by simpa [Nat.succ_lt_succ_iff] using hi)
        (by simpa [List.getD_cons_succ] using hc1)
        (by simpa [List.getD_cons_succ] using hc2)
      rw [getD_tail] at this
      simpa [List.getD_cons_succ] using this

theorem overflowSplit_fst_le (students : List Student) (cap : Nat) :
    (↑(overflowSplit students cap).1 : Multiset Student) ≤ ↑students := by
  unfold overflowSplit
  split
  · exact Multiset.coe_le.mpr (List.take_sublist _ _).subperm
  · exact le_refl _

/-! ### Claim theorems -/

/-- C1: in every room of every successful seating result, all placed
students have the same `year`: the first placement sets the room's year lock
and every later placement in the room comes from the locked year's pools, so
no room ever mixes two years. -/
theorem yearLock_no_mixed_years (students : List Student) (rooms : List Room)
    (res : SeatingResult) (hres : generateSeatingModel students rooms = Except.ok res) :
    ∀ rr ∈ res.rooms, ∀ s1 ∈ rr.placed, ∀ s2 ∈ rr.placed, s1.year = s2.year := by
  obtain ⟨-, hrooms, -, -⟩ := generateSeatingModel_ok_elim students rooms res hres
  obtain ⟨-, -, hroomprops, -⟩ :=
    processRooms_spec (sortRoomsNumeric rooms)
      (distributeStudentsAcrossRooms
        (overflowSplit students ((sortRoomsNumeric rooms).map Room.capacity).sum).1.length
        (sortRoomsNumeric rooms))
      (mkPools (overflowSplit students ((sortRoomsNumeric rooms).map Room.capacity).sum).1)
      (mkPools_inv _)
  intro rr hrr
  rw [hrooms] at hrr
  exact (hroomprops rr hrr).1

/-- Witness for C1 on a concrete run (four students, one room): the first
two placed students have the same year. -/
theorem yearLock_no_mixed_years_witness :
    (altRoom0.placed.headD default).year = (altRoom0.placed.getD 1 default).year :=
  yearLock_no_mixed_years altStudents altRooms altResult (by rfl) altRoom0 (by decide)
    (altRoom0.placed.headD default) (by decide) (altRoom0.placed.getD 1 default) (by decide)

/-- C6: in every room of a successful result, two consecutive placed
students (in fill order) are both CSE only if the non-CSE pool of the
room's locked year (the year of those students) was exhausted at the moment
of the second placement (`trace` records the pool state right before each
placement). -/
theorem cse_alternation_unless_exhausted (students : List Student) (rooms : List Room)
    (res : SeatingResult) (hres : generateSeatingModel students rooms = Except.ok res) :
    ∀ rr ∈ res.rooms, ∀ i : Nat, i + 1 < rr.placed.length →
      (rr.placed.getD i default).branch = "CSE" →
      (rr.placed.getD (i + 1) default).branch = "CSE" →
      (nonPoolOf (rr.trace.getD (i + 1) default)
        (rr.placed.getD (i + 1) default).year).remaining = [] := by
  obtain ⟨-, hrooms, -, -⟩ := generateSeatingModel_ok_elim students rooms res hres
  obtain ⟨-, -, hroomprops, -⟩ :=
    processRooms_spec (sortRoomsNumeric rooms)
      (distributeStudentsAcrossRooms
        (overflowSplit students ((sortRoomsNumeric rooms).map Room.capacity).sum).1.length
        (sortRoomsNumeric rooms))
      (mkPools (overflowSplit students ((sortRoomsNumeric rooms).map Room.capacity).sum).1)
      (mkPools_inv _)
  intro rr hrr
  rw [hrooms] at hrr
  exact altChain_pair rr.placed rr.trace false (hroomprops rr hrr).2.2

/-- Witness for C6 on a concrete run in which the third and fourth placed
students are both CSE (the non-CSE pool was exhausted by then). -/
theorem cse_alternation_unless_exhausted_witness :
    (nonPoolOf (altRoom0.trace.getD 3 default)
      (altRoom0.placed.getD 3 default).year).remaining = [] :=
  cse_alternation_unless_exhausted altStudents altRooms altResult (by rfl) altRoom0
    (by decide) 2 (by decide) (by decide) (by decide)

/-- C10: when the input students carry pairwise distinct ids, no id occupies
more than one seat across all rooms of a successful result: the four pools
partition the (year 1/2) students, cursors only advance, and the lookahead
swap stays inside the unconsumed part of one pool. -/
theorem no_student_seated_twice (students : List Student) (rooms : List Room)
    (res : SeatingResult) (hnd : (students.map Student.id).Nodup)
    (hres : generateSeatingModel students rooms = Except.ok res) :
    ∀ i : Nat, (res.allPlaced.map Student.id).count i ≤ 1 := by
  obtain ⟨-, hrooms, -, -⟩ := generateSeatingModel_ok_elim students rooms res hres
  obtain ⟨-, hms, -, -⟩ :=
    processRooms_spec (sortRoomsNumeric rooms)
      (distributeStudentsAcrossRooms
        (overflowSplit students ((sortRoomsNumeric rooms).map Room.capacity).sum).1.length
        (sortRoomsNumeric rooms))
      (mkPools (overflowSplit students ((sortRoomsNumeric rooms).map Room.capacity).sum).1)
      (mkPools_inv _)
  intro i
  have hplaced : (↑res.allPlaced : Multiset Student)
      ≤ ↑(overflowSplit students ((sortRoomsNumeric rooms).map Room.capacity).sum).1 := by
    refine le_trans ?_ (poolsRem_mkPools_le _)
    rw [SeatingResult.allPlaced, hrooms, hms]
    exact Multiset.le_add_right _ _
  have hle : (↑res.allPlaced : Multiset Student) ≤ ↑students :=
    le_trans hplaced (overflowSplit_fst_le students _)
  have hmap := Multiset.map_le_map (f := Student.id) hle
  have hcount := Multiset.count_le_of_le i hmap
  rw [Multiset.map_coe, Multiset.map_coe, Multiset.coe_count, Multiset.coe_count] at hcount
  exact le_trans hcount (List.nodup_iff_count_le_one.mp hnd i)

/-- Witness for C10 on a concrete run: id 0 is seated at most once. -/
theorem no_student_seated_twice_witness :
    (altResult.allPlaced.map Student.id).count 0 ≤ 1 :=
  no_student_seated_twice altStudents altRooms altResult (by decide) (by rfl) 0


/-- C7: rooms are processed and appear in the result in ascending numeric
order of the number suffix of their name (`parseInt` after stripping the
`R`), not lexical string order: the pipeline sorts with the numeric
comparator and the engine emits rooms in that order. -/
theorem rooms_sorted_numerically (students : List Student) (rooms : List Room)
    (res : SeatingResult) (hres : generateSeatingModel students rooms = Except.ok res) :
    res.rooms.map RoomRun.roomName = (sortRoomsNumeric rooms).map Room.name ∧
    (sortRoomsNumeric rooms).Perm rooms ∧
    List.Sorted roomLe (sortRoomsNumeric rooms) := by
  obtain ⟨-, hrooms, -, -⟩ := generateSeatingModel_ok_elim students rooms res hres
  obtain ⟨-, -, -, hnames⟩ :=
    processRooms_spec (sortRoomsNumeric rooms)
      (distributeStudentsAcrossRooms
        (overflowSplit students ((sortRoomsNumeric rooms).map Room.capacity).sum).1.length
        (sortRoomsNumeric rooms))
      (mkPools (overflowSplit students ((sortRoomsNumeric rooms).map Room.capacity).sum).1)
      (mkPools_inv _)
  refine ⟨?_, List.perm_insertionSort _ _, List.sorted_insertionSort _ _⟩
  rw [hrooms]
  exact hnames

/-- Witness for C7: given rooms named R2, R10, R1, the result lists them as
R1, R2, R10 (R2 precedes R10, unlike lexical order). -/
theorem rooms_sorted_numerically_witness :
    sortDemoResult.rooms.map RoomRun.roomName = ["R1", "R2", "R10"] := by
  have h := rooms_sorted_numerically sortDemoStudents sortDemoRooms sortDemoResult (by rfl)
  rw [h.1]
  decide

/-- C3: the overflow handling splits a student list that exceeds the total
capacity into the first `totalCapacity` students (to seat) and the remaining
suffix (unassigned, of size `length - totalCapacity`); with no overflow the
unassigned set is empty.  It is a total function: no case throws. -/
theorem overflow_split_graceful (students : List Student) (cap : Nat) :
    (cap < students.length →
      (overflowSplit students cap).1 = students.take cap ∧
      (overflowSplit students cap).2 = students.drop cap ∧
      (overflowSplit students cap).2.length = students.length - cap) ∧
    (students.length ≤ cap →
      (overflowSplit students cap).1 = students ∧ (overflowSplit students cap).2 = []) := by
  constructor
  · intro h
    simp [overflowSplit, h]
  · intro h
    simp [overflowSplit, Nat.not_lt.mpr h]

/-- Witness for C3 at a concrete overflowing and a concrete fitting input. -/
theorem overflow_split_graceful_witness :
    (overflowSplit overflowStudents 6).2.length = overflowStudents.length - 6 ∧
    (overflowSplit overflowStudents 7).2 = [] :=
  ⟨((overflow_split_graceful overflowStudents 6).1 (by decide)).2.2,
   ((overflow_split_graceful overflowStudents 7).2 (by decide)).2⟩

/-- Loop invariant of the capacity planner: entry `i` is the base share plus
one while the remainder lasts, capped at the room's capacity. -/
theorem distributeGo_getD (base : Nat) :
    ∀ (rooms : List Room) (rem i : Nat), i < rooms.length →
      (distributeGo base rem rooms).getD i 0 =
        min (base + if i < rem then 1 else 0) ((rooms.getD i default).capacity) := by
  intro rooms
  induction rooms with
  | nil => intro rem i h; simp at h
  | cons r rs ih =>
    intro rem i h
    cases i with
    | zero =>
      by_cases hr : 0 < rem
      · simp [distributeGo, hr]
      · simp [distributeGo, hr]
    | succ j =>
      have hj : j < rs.length := by simpa [Nat.succ_lt_succ_iff] using h
      by_cases hr : 0 < rem
      · simp only [distributeGo, hr, if_pos, List.getD_cons_succ]
        rw [ih (rem - 1) j hj]
        simp only [show (j < rem - 1) ↔ j + 1 < rem from by omega]
      · have h0 : rem = 0 := by omega
        subst h0
        simp only [distributeGo, Nat.lt_irrefl, if_neg, not_false_eq_true,
          List.getD_cons_succ]
        rw [ih 0 j hj]
        simp

/-- C4: the capacity planner gives room `i` (0-based) the target occupancy
`min(floor(n/k) + (1 if i < n mod k else 0), capacity_i)`: an even split with
the remainder going to the earliest rooms, capped at each room's capacity. -/
theorem capacity_planner_even_split (n : Nat) (rooms : List Room) (i : Nat)
    (h : i < rooms.length) :
    (distributeStudentsAcrossRooms n rooms).getD i 0 =
      min (n / rooms.length + if i < n % rooms.length then 1 else 0)
        ((rooms.getD i default).capacity) :=
  distributeGo_getD (n / rooms.length) rooms (n % rooms.length) i h

/-- Witness for C4 at a concrete input (7 students over rooms of capacities
1 and 5). -/
theorem capacity_planner_even_split_witness :
    (distributeStudentsAcrossRooms 7 unevenRooms).getD 1 0 =
      min (7 / 2 + if 1 < 7 % 2 then 1 else 0) ((unevenRooms.getD 1 default).capacity) :=
  capacity_planner_even_split 7 unevenRooms 1 (by decide)


/-- Counterexample to C5 as stated, on two independent counts.  First, the
gap formula runs on the GRID SIZE `rows * cols`, not the room capacity: a
custom room of capacity 47 gets a 5 × 10 = 50-cell grid, and for target 46
the selected cells differ from the capacity-based `⌊i * (47 / 46)⌋`.
Second, even on a standard 45-seat room (grid size = capacity) the code
computes `Math.floor(i * (45 / t))` in binary64, which differs from the
claim's exact `⌊i * (45 / t)⌋` at target 33: at `i = 11` the double product
is `14.999999999999998`, so the code selects cell 14 where the exact formula
gives 15. -/
theorem gap_formula_capacity_counterexample :
    (roomDims ⟨1, "R1", 47, ""⟩ = (5, 10) ∧
      calculateSeatPositions 5 10 46 ≠ claimSelectedCells 47 46) ∧
    calculateSeatPositions 5 9 33 ≠ claimSelectedCells 45 33 := by
  exact ⟨⟨by decide, by decide⟩, by decide⟩

/-- C5 (amended): with `g = rows * cols` the grid cell count (equal to the
capacity for the standard 45- and 60-seat rooms), the code selects all `g`
cells when `t ≥ g`; otherwise it selects `Math.floor(i * (g / t))` computed
in IEEE-754 binary64 arithmetic for `i = 0 … t-1` — `t` cells starting at
cell 0, occasionally one cell away from the exact `⌊i * g / t⌋`.  For the
45-seat (5 × 9) room targeted for 40 occupants the interval `45 / 40 =
1.125` is a dyadic rational, the double arithmetic is exact, the 40 selected
cells are strictly increasing and agree with the exact formula, and exactly
5 cells remain null, at the positions not selected. -/
theorem gap_positions_spec (rows cols t : Nat) :
    (rows * cols ≤ t → calculateSeatPositions rows cols t = List.range (rows * cols)) ∧
    (0 < t → t < rows * cols →
      (calculateSeatPositions rows cols t).length = t ∧
      (calculateSeatPositions rows cols t).getD 0 0 = 0) ∧
    (calculateSeatPositions 5 9 40 = claimSelectedCells 45 40 ∧
      List.Pairwise (· < ·) (calculateSeatPositions 5 9 40) ∧
      ((List.range 45).filter
        (fun q => !((calculateSeatPositions 5 9 40).contains q))).length = 5) := by
  refine ⟨?_, ?_, by decide, by decide, by decide⟩
  · intro h
    simp [calculateSeatPositions, h]
  · intro ht0 htl
    have hnle : ¬ rows * cols ≤ t := by omega
    constructor
    · simp [calculateSeatPositions, hnle]
    · have hz : ∀ x : Nat × Int, dfloor (jsMul 0 x) = 0 := by
        intro x
        have h0 : jsMul 0 x = (0, x.2) := by simp [jsMul, log2go]
        rw [h0]
        rcases x.2 with k | k <;> simp [dfloor]
      obtain ⟨u, rfl⟩ : ∃ u, t = u + 1 := ⟨t - 1, by omega⟩
      simp [calculateSeatPositions, hnle, List.range_succ_eq_map, hz]

/-- Witness for the amended C5 at the 45-seat (5 × 9) room with target 40. -/
theorem gap_positions_spec_witness :
    (calculateSeatPositions 5 9 40).length = 40 ∧
    (calculateSeatPositions 5 9 40).getD 0 0 = 0 :=
  ⟨((gap_positions_spec 5 9 40).2.1 (by decide) (by decide)).1,
   ((gap_positions_spec 5 9 40).2.1 (by decide) (by decide)).2⟩

/-- C8: the queue-level reading of `getStudentFromPool`.  The draw returns
no student exactly when the cursor has reached the end of the pool.  With no
left neighbour the front of the remaining queue is consumed.  With a left
neighbour of branch `b`, the scan inspects at most the first 5 students of
the remaining queue for one of a different branch: if none is found the
front is consumed unconditionally; if the first such student sits at offset
`i`, that student is returned and the former front moves to position `i` of
the remaining queue (stateful swap), whose head is then consumed. -/
theorem pool_draw_spec (p : Pool) :
    (∀ lb, ((getStudentFromPool p lb).1 = none ↔ p.remaining = [])) ∧
    (∀ s r, p.remaining = s :: r →
      (getStudentFromPool p none).1 = some s ∧
      ((getStudentFromPool p none).2).remaining = r) ∧
    (∀ b s r, p.remaining = s :: r →
      ((p.remaining.take 5).findIdx? (fun st => st.branch != b) = none →
        (getStudentFromPool p (some b)).1 = some s ∧
        ((getStudentFromPool p (some b)).2).remaining = r) ∧
      (∀ i, (p.remaining.take 5).findIdx? (fun st => st.branch != b) = some i →
        (getStudentFromPool p (some b)).1 = some (p.remaining.getD i default) ∧
        ((getStudentFromPool p (some b)).2).remaining = (p.remaining.set i s).drop 1)) := by
  obtain ⟨l, k⟩ := p
  by_cases hk : l.length ≤ k
  · have hrem : Pool.remaining ⟨l, k⟩ = [] := List.drop_eq_nil_of_le hk
    refine ⟨fun lb => ?_, fun s r hsr => ?_, fun b s r hsr => ?_⟩
    · simp [getStudentFromPool, hk, hrem]
    · rw [hrem] at hsr; cases hsr
    · rw [hrem] at hsr; cases hsr
  · have hklt : k < l.length := Nat.lt_of_not_le hk
    have hrem : Pool.remaining ⟨l, k⟩ = l[k] :: l.drop (k + 1) := by
      simp [Pool.remaining, List.getElem_cons_drop]
    have hlook : ∀ b, lookWindow l k b =
        (((l.drop k).take 5).findIdx? (fun st => st.branch != b)).map (· + k) := by
      intro b
      rw [lookWindow, lookWin_eq_findIdx]
    refine ⟨fun lb => ?_, fun s r hsr => ?_, fun b s r hsr => ?_⟩
    · constructor
      · intro hn
        exfalso
        rcases lb with _ | b
        · simp [getStudentFromPool, hk] at hn
        · rcases hw : lookWindow l k b with _ | j <;>
            simp [getStudentFromPool, hk, hw] at hn
      · intro hc
        rw [hrem] at hc
        cases hc
    · rw [hrem] at hsr
      injection hsr with h1 h2
      subst h1; subst h2
      constructor
      · simp [getStudentFromPool, hk, List.getElem?_eq_getElem hklt]
      · simp [getStudentFromPool, hk, Pool.remaining]
    · rw [hrem] at hsr
      injection hsr with h1 h2
      subst h1; subst h2
      constructor
      · intro hfind
        have hw : lookWindow l k b = none := by
          rw [hlook b]
          rw [show ((Pool.remaining ⟨l, k⟩).take 5) = ((l.drop k).take 5) from rfl] at hfind
          rw [hfind]
          rfl
        constructor
        · simp [getStudentFromPool, hk, hw, List.getElem?_eq_getElem hklt]
        · simp [getStudentFromPool, hk, hw, Pool.remaining]
      · intro i hfind
        have hfind' : ((l.drop k).take 5).findIdx? (fun st => st.branch != b) = some i := hfind
        have hw : lookWindow l k b = some (i + k) := by
          rw [hlook b, hfind']
          rfl
        have hlw : lookWin (l.drop k) b 5 = some i := by
          rw [lookWin_eq_findIdx]
          exact hfind'
        obtain ⟨hilt, -, -⟩ := lookWin_some b _ _ _ hlw
        have hik : i + k < l.length := by
          simp only [List.length_drop] at hilt; omega
        have hgd : l.getD (i + k) default = (Pool.remaining ⟨l, k⟩).getD i default := by
          rw [List.getD_eq_getElem l _ hik,
            List.getD_eq_getElem _ _ (by simpa [Pool.remaining] using hilt)]
          simp only [Pool.remaining, List.getElem_drop]
          congr 1
          omega
        by_cases hi0 : i = 0
        · subst hi0
          have hz : (0 + k : Nat) = k := Nat.zero_add k
          rw [hrem]
          constructor
          · simp [getStudentFromPool, hk, hw, hz, List.getElem?_eq_getElem hklt, List.getD]
          · rw [List.set_cons_zero, List.drop_succ_cons, List.drop_zero]
            simp [getStudentFromPool, hk, hw, hz, Pool.remaining]
        · have hne : ¬ (i + k = k) := by omega
          have harr : (Pool.remaining ⟨listSwap l k (i + k), k + 1⟩)
              = (l.drop (k + 1)).set (i - 1) l[k] := by
            simp only [Pool.remaining, listSwap]
            rw [List.drop_set, if_neg (by omega), List.drop_set, if_pos (by omega),
              List.getD_eq_getElem l _ hklt]
            congr 1
            omega
          constructor
          · simp only [getStudentFromPool, hk, if_neg, not_false_eq_true, hw, hne, if_false]
            exact congrArg some hgd
          · simp only [getStudentFromPool, hk, if_neg, not_false_eq_true, hw, hne, if_false]
            rw [harr, hrem]
            obtain ⟨j, rfl⟩ : ∃ j, i = j + 1 := ⟨i - 1, by omega⟩
            rw [List.set_cons_succ, List.drop_succ_cons, List.drop_zero]
            simp

/-- Witness for C8: drawing from a concrete pool (cursor at the front, two
CSE students before an ECE student) with a CSE left neighbour returns the
student at offset 2 and moves the former front to position 2. -/
theorem pool_draw_spec_witness :
    (getStudentFromPool demoPool (some "CSE")).1 = some (demoPool.remaining.getD 2 default) ∧
    ((getStudentFromPool demoPool (some "CSE")).2).remaining =
      (demoPool.remaining.set 2 (mkStudent 0 "CSE" 1)).drop 1 :=
  ((pool_draw_spec demoPool).2.2 "CSE" (mkStudent 0 "CSE" 1)
    [mkStudent 1 "CSE" 1, mkStudent 2 "ECE" 1, mkStudent 3 "CSE" 1] (by decide)).2 2 (by decide)


/-- C2 (code-bug evidence): on rooms of capacities 1 and 5 with 7 students
(total capacity 6), the pipeline seats only 4 students and records 1 as
unassigned: `distributeStudentsAcrossRooms` caps the first room's share at
its capacity without redistributing the surplus, so 2 students are neither
seated nor unassigned — `placed + unassigned = 5 ≠ 7`, violating
conservation and the source's own overflow documentation ("Fill all seats,
track unassigned students"). -/
theorem conservation_fails_on_capped_rooms :
    overflowStudents.length = 7 ∧
    ((sortRoomsNumeric unevenRooms).map Room.capacity).sum = 6 ∧
    ((generateSeatingModel overflowStudents unevenRooms).toOption.map
      (fun res => (res.allPlaced.length, res.unassignedStudents.length)))
      = some (4, 1) ∧
    4 + 1 ≠ 7 := by
  exact ⟨by decide, by decide, by decide, by decide⟩

/-- C9 (code-bug evidence): an exact-fit input (30 students, rooms of
capacities 10 and 20 whose grids have exactly 10 and 20 cells) yields an
empty unassigned set but only 25 seated students: the second room gets a
target of 15 < 20 because the first room's capped share is not
redistributed, so 5 cells of its grid stay null and 5 students disappear —
"every cell is filled" fails on the code. -/
theorem exact_fit_leaves_gaps :
    exactFitStudents.length = 30 ∧
    ((sortRoomsNumeric exactFitRooms).map Room.capacity).sum = 30 ∧
    ((generateSeatingModel exactFitStudents exactFitRooms).toOption.map
      (fun res => (res.unassignedStudents,
        res.rooms.map (fun rr => (rr.grid.length, rr.placed.length)))))
      = some ([], [(10, 10), (20, 15)]) := by
  exact ⟨by decide, by decide, by decide⟩


end ExamHall
